import Mathlib

/-!
Verification of the output-artifact location resolver and the filesystem
registry of this repository.

The development shallowly embeds two Python modules:

* `tfx/orchestration/portable/outputs_utils.py` — the `OutputsResolver`
  class (`generate_output_artifacts`, `get_executor_output_uri`,
  `get_stateful_working_directory`) and the module-level functions
  `make_output_dirs` / `remove_output_dirs`.
* `tfx/dsl/io/filesystem_registry.py` — the `FilesystemRegistry` class
  (`register`, `get_filesystem_for_scheme`, `get_filesystem_for_path`).

Python strings become `String`, Python ints become `Int`,
`os.path.join` / `os.path.dirname` are embedded with CPython posixpath
semantics, `str(execution_id)` is embedded as decimal rendering, dicts
become association lists, and the `tf.io.gfile` filesystem calls act on an
explicit filesystem state `FS` (set of directories plus a map from file
paths to contents); calls that can raise return `Except`.
-/

/-! ### Association-list dictionaries (Python `dict`) -/

def dictGet {α β : Type} [DecidableEq α] : List (α × β) → α → Option β
  | [], _ => none
  | (k, v) :: rest, a => if k = a then some v else dictGet rest a

def dictSet {α β : Type} [DecidableEq α] : List (α × β) → α → β → List (α × β)
  | [], a, b => [(a, b)]
  | (k, v) :: rest, a, b =>
      if k = a then (a, b) :: rest else (k, v) :: dictSet rest a b

theorem dictGet_dictSet {α β : Type} [DecidableEq α]
    (d : List (α × β)) (a : α) (b : β) (x : α) :
    dictGet (dictSet d a b) x = if x = a then some b else dictGet d x := by
  induction d with
  | nil =>
      by_cases hx : x = a
      · subst hx; simp [dictSet, dictGet]
      · have hx' : ¬ a = x := fun h => hx h.symm
        simp [dictSet, dictGet, hx, hx']
  | cons kv rest ih =>
      obtain ⟨k, v⟩ := kv
      by_cases hk : k = a
      · subst hk
        by_cases hx : x = k
        · subst hx
          simp [dictSet, dictGet]
        · have hx' : ¬ k = x := fun h => hx h.symm
          simp [dictSet, dictGet, hx, hx']
      · by_cases hxk : x = k
        · have hxa : ¬ x = a := fun h => hk (hxk.symm.trans h)
          have hkx : k = x := hxk.symm
          simp [dictSet, dictGet, hk, hxa, hkx]
        · have hkx : ¬ k = x := fun h => hxk h.symm
          simp [dictSet, dictGet, hk, hkx, ih]

/-- Membership test on a list of strings (a set of paths). -/
def memStr : List String → String → Bool
  | [], _ => false
  | p :: rest, u => if p = u then true else memStr rest u

/-- No element of the list occurs twice. -/
def distinctB {α : Type} [DecidableEq α] : List α → Bool
  | [] => true
  | a :: rest => if a ∈ rest then false else distinctB rest

theorem distinctB_middle {α : Type} [DecidableEq α]
    (l1 : List α) (a : α) (l2 : List α)
    (h : distinctB (l1 ++ a :: l2) = true) : a ∉ l1 := by
  induction l1 with
  | nil => simp
  | cons x t ih =>
      simp only [List.cons_append, distinctB] at h
      split at h
      · exact absurd h (by simp)
      · rename_i hmem
        intro hx
        rcases List.mem_cons.mp hx with hx | hx
        · exact hmem (hx ▸ (by simp))
        · exact ih h hx

/-! ### Python decimal rendering of integers (`str(execution_id)`) -/

/-- The character for a decimal digit `n < 10`. -/
def natDigitChar (n : Nat) : Char := Char.ofNat (48 + n)

/-- Decimal digits of a natural number, most significant first.
The first argument is recursion fuel; `n + 1` units always suffice. -/
def natStrAuxF : Nat → Nat → List Char
  | 0, _ => []
  | fuel + 1, n =>
      if n < 10 then [natDigitChar n]
      else natStrAuxF fuel (n / 10) ++ [natDigitChar (n % 10)]

/-- Decimal digit string of a natural number. -/
def natStr (n : Nat) : List Char := natStrAuxF (n + 1) n

theorem natStrAuxF_stable (n : Nat) : ∀ f : Nat, n < f → natStrAuxF f n = natStr n := by
  induction n using Nat.strong_induction_on with
  | _ n ih =>
      intro f hf
      match f with
      | f' + 1 =>
        by_cases h10 : n < 10
        · simp [natStrAuxF, natStr, h10]
        · have hn0 : 0 < n := by omega
          have hdiv : n / 10 < n := Nat.div_lt_self hn0 (by omega)
          have h1 : natStrAuxF f' (n / 10) = natStr (n / 10) :=
            ih (n / 10) hdiv f' (by omega)
          have h2 : natStrAuxF n (n / 10) = natStr (n / 10) :=
            ih (n / 10) hdiv n hdiv
          simp [natStrAuxF, natStr, h10, h1, h2]

/-- Unfolding equation for `natStr`. -/
theorem natStr_eq (n : Nat) :
    natStr n = if n < 10 then [natDigitChar n]
               else natStr (n / 10) ++ [natDigitChar (n % 10)] := by
  by_cases h10 : n < 10
  · simp [natStr, natStrAuxF, h10]
  · have hn0 : 0 < n := by omega
    have hdiv : n / 10 < n := Nat.div_lt_self hn0 (by omega)
    have := natStrAuxF_stable (n / 10) n hdiv
    simp [natStr, natStrAuxF, h10]
    simpa [natStr] using this

theorem natDigitChar_lt_inj :
    ∀ n, n < 10 → ∀ m, m < 10 → natDigitChar n = natDigitChar m → n = m := by decide

theorem natDigitChar_digit : ∀ n, n < 10 →
    natDigitChar n ≠ '/' ∧ natDigitChar n ≠ '-' := by decide

theorem natStr_ne_nil (n : Nat) : natStr n ≠ [] := by
  rw [natStr_eq]
  split <;> simp

theorem natStr_chars (n : Nat) :
    ∀ c ∈ natStr n, c ≠ '/' ∧ c ≠ '-' := by
  induction n using Nat.strong_induction_on with
  | _ n ih =>
      intro c hc
      rw [natStr_eq] at hc
      by_cases h10 : n < 10
      · simp [h10] at hc
        exact hc ▸ natDigitChar_digit n h10
      · have hn0 : 0 < n := by omega
        have hdiv : n / 10 < n := Nat.div_lt_self hn0 (by omega)
        simp [h10] at hc
        rcases hc with hc | hc
        · exact ih (n / 10) hdiv c hc
        · exact hc ▸ natDigitChar_digit (n % 10) (Nat.mod_lt n (by omega))

theorem natStr_inj : ∀ n m : Nat, natStr n = natStr m → n = m := by
  intro n
  induction n using Nat.strong_induction_on with
  | _ n ih =>
      intro m h
      rw [natStr_eq n, natStr_eq m] at h
      by_cases hn : n < 10 <;> by_cases hm : m < 10
      · simp [hn, hm] at h
        exact natDigitChar_lt_inj n hn m hm h
      · exfalso
        simp [hn, hm] at h
        have hne := natStr_ne_nil (m / 10)
        cases hcase : natStr (m / 10) with
        | nil => exact hne hcase
        | cons a t => rw [hcase] at h; simp at h
      · exfalso
        simp [hn, hm] at h
        have hne := natStr_ne_nil (n / 10)
        cases hcase : natStr (n / 10) with
        | nil => exact hne hcase
        | cons a t => rw [hcase] at h; simp at h
      · simp [hn, hm] at h
        have hrev := congrArg List.reverse h
        simp only [List.reverse_append, List.reverse_cons, List.reverse_nil,
          List.nil_append, List.singleton_append] at hrev
        have hhead : natDigitChar (n % 10) = natDigitChar (m % 10) :=
          (List.cons.injEq _ _ _ _ ▸ hrev).1
        have htail : natStr (n / 10) = natStr (m / 10) := by
          have := (List.cons.injEq _ _ _ _ ▸ hrev).2
          have := congrArg List.reverse this
          simpa using this
        have hn0 : 0 < n := by omega
        have hdiv : n / 10 < n := Nat.div_lt_self hn0 (by omega)
        have hq : n / 10 = m / 10 := ih (n / 10) hdiv (m / 10) htail
        have hr : n % 10 = m % 10 :=
          natDigitChar_lt_inj _ (Nat.mod_lt n (by omega)) _ (Nat.mod_lt m (by omega)) hhead
        omega

/-- Embedding of Python `str` on `int` values: decimal digits, with a
leading minus sign for negative numbers. -/
def pyStr (i : Int) : String :=
  if i < 0 then String.mk ('-' :: natStr i.natAbs) else String.mk (natStr i.natAbs)

theorem pyStr_data_neg (i : Int) (h : i < 0) :
    (pyStr i).data = '-' :: natStr i.natAbs := by
  simp [pyStr, h]

theorem pyStr_data_nonneg (i : Int) (h : ¬ i < 0) :
    (pyStr i).data = natStr i.natAbs := by
  simp [pyStr, h]

theorem pyStr_chars (i : Int) : ∀ c ∈ (pyStr i).data, c ≠ '/' := by
  intro c hc
  by_cases h : i < 0
  · rw [pyStr_data_neg i h] at hc
    rcases List.mem_cons.mp hc with hc | hc
    · subst hc; decide
    · exact (natStr_chars _ c hc).1
  · rw [pyStr_data_nonneg i h] at hc
    exact (natStr_chars _ c hc).1

theorem pyStr_ne_nil (i : Int) : (pyStr i).data ≠ [] := by
  by_cases h : i < 0
  · rw [pyStr_data_neg i h]; simp
  · rw [pyStr_data_nonneg i h]; exact natStr_ne_nil _

theorem natStr_snoc (n : Nat) :
    ∃ pre d, natStr n = pre ++ [d] ∧ d ≠ '/' := by
  rw [natStr_eq]
  by_cases h10 : n < 10
  · exact ⟨[], natDigitChar n, by simp [h10], (natDigitChar_digit n h10).1⟩
  · exact ⟨natStr (n / 10), natDigitChar (n % 10), by simp [h10],
      (natDigitChar_digit (n % 10) (Nat.mod_lt n (by omega))).1⟩

theorem pyStr_snoc (i : Int) :
    ∃ pre d, (pyStr i).data = pre ++ [d] ∧ d ≠ '/' := by
  obtain ⟨pre, d, hpre, hd⟩ := natStr_snoc i.natAbs
  by_cases h : i < 0
  · exact ⟨'-' :: pre, d, by rw [pyStr_data_neg i h, hpre]; simp, hd⟩
  · exact ⟨pre, d, by rw [pyStr_data_nonneg i h, hpre], hd⟩

theorem pyStr_inj (i j : Int) (h : pyStr i = pyStr j) : i = j := by
  have hdata : (pyStr i).data = (pyStr j).data := congrArg String.data h
  by_cases hi : i < 0 <;> by_cases hj : j < 0
  · rw [pyStr_data_neg i hi, pyStr_data_neg j hj] at hdata
    have := natStr_inj _ _ (List.cons.injEq _ _ _ _ ▸ hdata).2
    omega
  · exfalso
    rw [pyStr_data_neg i hi, pyStr_data_nonneg j hj] at hdata
    have hmem : '-' ∈ natStr j.natAbs := by rw [← hdata]; simp
    exact (natStr_chars _ '-' hmem).2 rfl
  · exfalso
    rw [pyStr_data_nonneg i hi, pyStr_data_neg j hj] at hdata
    have hmem : '-' ∈ natStr i.natAbs := by rw [hdata]; simp
    exact (natStr_chars _ '-' hmem).2 rfl
  · rw [pyStr_data_nonneg i hi, pyStr_data_nonneg j hj] at hdata
    have := natStr_inj _ _ hdata
    omega

/-- If two slash-free prefixes are each followed by a slash inside equal
strings, the prefixes and the suffixes agree. -/
theorem sep_split (l1 : List Char) : ∀ (l2 r1 r2 : List Char),
    (∀ c ∈ l1, c ≠ '/') → (∀ c ∈ l2, c ≠ '/') →
    l1 ++ '/' :: r1 = l2 ++ '/' :: r2 → l1 = l2 ∧ r1 = r2 := by
  induction l1 with
  | nil =>
      intro l2 r1 r2 _ h2 h
      cases l2 with
      | nil => simpa using h
      | cons c t =>
          exfalso
          simp only [List.nil_append, List.cons_append] at h
          have : c = '/' := ((List.cons.injEq _ _ _ _ ▸ h).1).symm
          exact h2 c (by simp) this
  | cons c t ih =>
      intro l2 r1 r2 h1 h2 h
      cases l2 with
      | nil =>
          exfalso
          simp only [List.nil_append, List.cons_append] at h
          have : c = '/' := (List.cons.injEq _ _ _ _ ▸ h).1
          exact h1 c (by simp) this
      | cons c2 t2 =>
          simp only [List.cons_append] at h
          have hc : c = c2 := (List.cons.injEq _ _ _ _ ▸ h).1
          have htl := (List.cons.injEq _ _ _ _ ▸ h).2
          have := ih t2 r1 r2 (fun x hx => h1 x (by simp [hx]))
            (fun x hx => h2 x (by simp [hx])) htl
          exact ⟨by rw [hc, this.1], this.2⟩

/-! ### Embedding of `os.path` (CPython posixpath semantics) -/

/-- Python `s.startswith('/')`. -/
def strStartsSep (s : String) : Bool :=
  match s.data with
  | [] => false
  | c :: _ => decide (c = '/')

/-- The last character of the list is a slash. -/
def lastIsSep (l : List Char) : Bool :=
  match l.reverse with
  | [] => false
  | c :: _ => decide (c = '/')

/-- Python `s.endswith('/')`. -/
def strEndsSep (s : String) : Bool := lastIsSep s.data

/-- Embedding of the two-argument `os.path.join(path, b)` (posixpath):
if `b` starts with the separator it replaces the path; otherwise it is
appended, inserting a separator unless `path` is empty or already ends
with one.  The three-argument joins in the source are folds of this. -/
def pathJoin (path b : String) : String :=
  if strStartsSep b then b
  else if path = "" then path ++ b
  else if strEndsSep path then path ++ b
  else path ++ "/" ++ b

/-- The separator (if any) that `pathJoin s` inserts after `s`. -/
def sepOf (s : String) : List Char :=
  if s = "" then [] else if strEndsSep s then [] else ['/']

theorem pathJoin_data (s b : String) (hb : strStartsSep b = false) :
    (pathJoin s b).data = s.data ++ sepOf s ++ b.data := by
  unfold pathJoin sepOf
  rw [hb]
  by_cases hs : s = ""
  · simp [hs]
  · by_cases he : strEndsSep s
    · simp [hs, he, String.data_append]
    · have hsep : ("/" : String).data = ['/'] := rfl
      simp [hs, he, String.data_append, hsep]

theorem pathJoin_simple (s b : String) (hb : strStartsSep b = false)
    (hs : s ≠ "") (he : strEndsSep s = false) :
    pathJoin s b = s ++ "/" ++ b := by
  unfold pathJoin
  rw [hb]
  simp [hs, he]

theorem strStartsSep_of_data (s : String) (c : Char) (l : List Char)
    (h : s.data = c :: l) : strStartsSep s = decide (c = '/') := by
  unfold strStartsSep
  rw [h]

theorem lastIsSep_append_right (l1 l2 : List Char) (h : l2 ≠ []) :
    lastIsSep (l1 ++ l2) = lastIsSep l2 := by
  unfold lastIsSep
  rw [List.reverse_append]
  cases hrev : l2.reverse with
  | nil => exact absurd (by simpa using congrArg List.reverse hrev) h
  | cons c t => simp

theorem lastIsSep_snoc (l : List Char) (c : Char) :
    lastIsSep (l ++ [c]) = decide (c = '/') := by
  unfold lastIsSep
  rw [List.reverse_append]
  simp

theorem data_ne_nil_ne_empty (s : String) (h : s.data ≠ []) : s ≠ "" := by
  intro he
  rw [he] at h
  exact h rfl

/-- `p[: p.rfind('/') + 1]`: the prefix of `l` up to and including the
last slash, `[]` if there is none. -/
def takeToLastSep (l : List Char) : List Char :=
  (l.reverse.dropWhile (fun c => decide (c ≠ '/'))).reverse

/-- All characters are slashes (`head == '/' * len(head)` in the source). -/
def allSep (l : List Char) : Bool := l.all (fun c => decide (c = '/'))

/-- Python `head.rstrip('/')`. -/
def stripTrailingSep (l : List Char) : List Char :=
  (l.reverse.dropWhile (fun c => decide (c = '/'))).reverse

/-- Embedding of `os.path.dirname` (posixpath): take the prefix through
the last slash; unless it is empty or consists only of slashes, strip
its trailing slashes. -/
def dirnameL (l : List Char) : List Char :=
  let head := takeToLastSep l
  if head = [] then head
  else if allSep head then head
  else stripTrailingSep head

def dirname (s : String) : String := String.mk (dirnameL s.data)

theorem dropWhile_append_all {α : Type} (p : α → Bool) (l1 l2 : List α)
    (h : ∀ c ∈ l1, p c = true) :
    (l1 ++ l2).dropWhile p = l2.dropWhile p := by
  induction l1 with
  | nil => rfl
  | cons a t ih =>
      simp only [List.cons_append, List.dropWhile_cons, h a (by simp)]
      exact ih (fun c hc => h c (by simp [hc]))

/-- `dirname` of a path of the form `d ++ "/" ++ t`, where the tail `t`
contains no slash and `d` is nonempty and does not end with a slash,
recovers `d`. -/
theorem dirnameL_append (d t : List Char) (hd : d ≠ [])
    (hlast : lastIsSep d = false) (ht : ∀ c ∈ t, c ≠ '/') :
    dirnameL (d ++ '/' :: t) = d := by
  obtain ⟨d0, c0, hd0⟩ : ∃ d0 c0, d = d0 ++ [c0] := by
    cases hrev : d.reverse with
    | nil => exact absurd (by simpa using congrArg List.reverse hrev) hd
    | cons c t0 =>
        exact ⟨t0.reverse, c, by
          have := congrArg List.reverse hrev
          simpa using this⟩
  have hc0 : c0 ≠ '/' := by
    rw [hd0, lastIsSep_snoc] at hlast
    simpa using hlast
  have hhead : takeToLastSep (d ++ '/' :: t) = d ++ ['/'] := by
    unfold takeToLastSep
    rw [List.reverse_append]
    have htrev : ∀ c ∈ t.reverse, (fun c => decide (c ≠ '/')) c = true := by
      intro c hc
      simpa using ht c (List.mem_reverse.mp hc)
    rw [show ('/' :: t).reverse = t.reverse ++ ['/'] by simp,
      List.append_assoc, dropWhile_append_all _ _ _ htrev]
    simp
  unfold dirnameL
  rw [hhead]
  have hne : d ++ ['/'] ≠ [] := by simp
  have hallsep : allSep (d ++ ['/']) = false := by
    unfold allSep
    rw [hd0]
    simp only [List.all_append, List.all_cons, List.all_nil, Bool.and_eq_false_iff]
    left
    simp [hc0]
  rw [if_neg hne, if_neg (by simp [hallsep])]
  unfold stripTrailingSep
  rw [hd0, List.reverse_append, List.reverse_append]
  simp [hc0]

/-! ### Filesystem state and the `tf.io.gfile` operations -/

/-- Filesystem state: a map from file paths to contents, and a set of
directory paths.  Both are finite association structures so that every
operation is executable. -/
structure FS where
  files : List (String × String)
  dirs : List String
deriving DecidableEq

def lookupFile : List (String × String) → String → Option String
  | [], _ => none
  | (p, c) :: rest, u => if p = u then some c else lookupFile rest u

def setFile : List (String × String) → String → String → List (String × String)
  | [], u, c => [(u, c)]
  | (p, pc) :: rest, u, c =>
      if p = u then (u, c) :: rest else (p, pc) :: setFile rest u c

def delFile : List (String × String) → String → List (String × String)
  | [], _ => []
  | (p, c) :: rest, u => if p = u then delFile rest u else (p, c) :: delFile rest u

/-- `tf.io.gfile.exists`-style check for a file. -/
def FS.fileExists (fs : FS) (u : String) : Bool := (lookupFile fs.files u).isSome

/-- `tf.io.gfile.isdir`. -/
def FS.isdir (fs : FS) (u : String) : Bool := memStr fs.dirs u

/-- The chain of directories `tf.io.gfile.makedirs` creates: the path
itself and its ancestors under `os.path.dirname`.  The fuel (first
argument) bounds the iteration count; `d.length + 1` always suffices
because `dirname` shortens a path whenever it changes it. -/
def mkdirChain : Nat → String → List String
  | 0, _ => []
  | fuel + 1, d =>
      if d = "" then []
      else if dirname d = d then [d]
      else d :: mkdirChain fuel (dirname d)

/-- `tf.io.gfile.makedirs`: create the directory and all its ancestors;
succeeds even when they already exist. -/
def FS.makedirs (fs : FS) (d : String) : FS :=
  { fs with dirs := mkdirChain (d.length + 1) d ++ fs.dirs }

/-- Writing a file with `tf.io.gfile.GFile(uri, 'w')`: the file now
exists with exactly the written contents. -/
def FS.writeFile (fs : FS) (u : String) (contents : String) : FS :=
  { fs with files := setFile fs.files u contents }

/-- `p` lies in the tree rooted at `d`: it is `d` itself or has `d ++ "/"`
as a proper path prefix. -/
def isUnder (d p : String) : Bool :=
  if p = d then true else List.isPrefixOf (d.data ++ ['/']) p.data

/-- `tf.io.gfile.rmtree`: delete the directory and everything beneath it. -/
def FS.rmtree (fs : FS) (d : String) : FS :=
  { files := fs.files.filter (fun pc => ! isUnder d pc.1),
    dirs := fs.dirs.filter (fun x => ! isUnder d x) }

/-- `tf.io.gfile.remove`: delete a single file. -/
def FS.removeFile (fs : FS) (u : String) : FS :=
  { fs with files := delFile fs.files u }

def emptyFS : FS := { files := [], dirs := [] }

/-! ### Embedding of `tfx/orchestration/portable/outputs_utils.py` -/

/-- One output artifact as produced by the resolver: its storage `uri`,
its idempotent `name`, and whether the deserialized artifact type is a
`ValueArtifact` (`isinstance(artifact, ValueArtifact)` in the source). -/
structure ArtifactD where
  uri : String
  name : String
  isValue : Bool
deriving DecidableEq

/-- The static context an `OutputsResolver` is constructed from:
`pipeline_info.id`, the pipeline run id and pipeline root from the
runtime spec, `pipeline_node.node_info.id`, and the node's declared
outputs (`pipeline_node.outputs.outputs`), each key mapped to whether
its declared artifact type deserializes to a `ValueArtifact`. -/
structure NodeContext where
  pipeline_id : String
  pipeline_run_id : String
  pipeline_root : String
  node_id : String
  outputs : List (String × Bool)
deriving DecidableEq

/-- `self._node_dir = os.path.join(self._pipeline_root, pipeline_node.node_info.id)`. -/
def node_dir (ctx : NodeContext) : String := pathJoin ctx.pipeline_root ctx.node_id

/-- `os.path.join(self._node_dir, _EXECUTION_PREFIX + str(execution_id))`,
with `_EXECUTION_PREFIX = 'execution_'`. -/
def execution_dir (ctx : NodeContext) (execution_id : Int) : String :=
  pathJoin (node_dir ctx) ("execution_" ++ pyStr execution_id)

/-- `'{0}:{1}:{2}:{3}:{4}'.format(pipeline_id, run_id, node_id, key, 0)`. -/
def artifactName (ctx : NodeContext) (key : String) : String :=
  ctx.pipeline_id ++ ":" ++ ctx.pipeline_run_id ++ ":" ++ ctx.node_id ++ ":" ++
    key ++ ":" ++ "0"

/-- The artifact built for one output key in
`OutputsResolver.generate_output_artifacts`: join the execution directory
with the key; for a `ValueArtifact` additionally join the fixed file name
`_VALUE_ARTIFACT_FILE_NAME = 'value'`; the `name` is the idempotent
format string above. -/
def mkArtifact (ctx : NodeContext) (execution_id : Int) (key : String)
    (isVal : Bool) : ArtifactD :=
  let uri0 := pathJoin (execution_dir ctx execution_id) key
  { uri := if isVal then pathJoin uri0 "value" else uri0,
    name := artifactName ctx key,
    isValue := isVal }

/-- `OutputsResolver.generate_output_artifacts`: one singleton artifact
list per declared output key. -/
def generate_output_artifacts (ctx : NodeContext) (execution_id : Int) :
    List (String × List ArtifactD) :=
  ctx.outputs.map (fun kv => (kv.1, [mkArtifact ctx execution_id kv.1 kv.2]))

/-- The same loop with the filesystem state threaded through each
iteration: the body performs no `tf.io.gfile` call, so each iteration
passes the state on unchanged. -/
def generate_output_artifacts_fs (ctx : NodeContext) (execution_id : Int)
    (fs : FS) : FS × List (String × List ArtifactD) :=
  ctx.outputs.foldl
    (fun st kv => (st.1, st.2 ++ [(kv.1, [mkArtifact ctx execution_id kv.1 kv.2])]))
    (fs, [])

/-- `OutputsResolver.get_executor_output_uri`: make the execution
directory, then return `os.path.join(execution_dir, 'executor_output.pb')`. -/
def get_executor_output_uri (ctx : NodeContext) (execution_id : Int)
    (fs : FS) : FS × String :=
  (fs.makedirs (execution_dir ctx execution_id),
   pathJoin (execution_dir ctx execution_id) "executor_output.pb")

/-- `os.path.join(self._node_dir, self._pipeline_run_id, _STATEFUL_WORKING_DIR)`. -/
def stateful_dir_path (ctx : NodeContext) : String :=
  pathJoin (pathJoin (node_dir ctx) ctx.pipeline_run_id) "stateful_working_dir"

/-- `OutputsResolver.get_stateful_working_directory`: make the stateful
working directory and return its path (no execution id is involved). -/
def get_stateful_working_directory (ctx : NodeContext) (fs : FS) : FS × String :=
  (fs.makedirs (stateful_dir_path ctx), stateful_dir_path ctx)

/-- The artifacts visited by the two nested loops
`for _, artifact_list in output_dict.items(): for artifact in artifact_list`,
in order. -/
def allArtifacts (output_dict : List (String × List ArtifactD)) : List ArtifactD :=
  (output_dict.map Prod.snd).join

/-- Body of the `make_output_dirs` loop: for a `ValueArtifact`, make the
parent directory and write an empty string to the uri (forcing creation
of the file); otherwise make the uri itself as a directory. -/
def makeArtifactStorage (fs : FS) (a : ArtifactD) : FS :=
  if a.isValue then (fs.makedirs (dirname a.uri)).writeFile a.uri ""
  else fs.makedirs a.uri

/-- `make_output_dirs(output_dict)`. -/
def make_output_dirs (output_dict : List (String × List ArtifactD))
    (fs : FS) : FS :=
  (allArtifacts output_dict).foldl makeArtifactStorage fs

/-- Body of the `remove_output_dirs` loop: `rmtree` a directory,
`remove` a file, and raise `NotFoundError` (as `tf.io.gfile.remove`
does) when neither exists at the uri. -/
def removeArtifactStorage (fs : FS) (a : ArtifactD) : Except String FS :=
  if fs.isdir a.uri then Except.ok (fs.rmtree a.uri)
  else if fs.fileExists a.uri then Except.ok (fs.removeFile a.uri)
  else Except.error ("NotFoundError: " ++ a.uri)

def removeAll : List ArtifactD → FS → Except String FS
  | [], fs => Except.ok fs
  | a :: rest, fs =>
      match removeArtifactStorage fs a with
      | Except.error e => Except.error e
      | Except.ok fs1 => removeAll rest fs1

/-- `remove_output_dirs(output_dict)`; an exception aborts the loop. -/
def remove_output_dirs (output_dict : List (String × List ArtifactD))
    (fs : FS) : Except String FS :=
  removeAll (allArtifacts output_dict) fs

/-- All uris in a generated output dict. -/
def urisOf (d : List (String × List ArtifactD)) : List String :=
  (d.map (fun kv => kv.2.map (fun a => a.uri))).join

/-- The names in a generated output dict, keyed by output key. -/
def namesOf (d : List (String × List ArtifactD)) : List (String × List String) :=
  d.map (fun kv => (kv.1, kv.2.map (fun a => a.name)))

/-! ### Shape of generated uris -/

theorem exec_tag_data (e : Int) :
    ("execution_" ++ pyStr e).data = 'e' :: ("xecution_".data ++ (pyStr e).data) := by
  rw [String.data_append]
  rfl

theorem strStartsSep_exec_tag (e : Int) :
    strStartsSep ("execution_" ++ pyStr e) = false := by
  rw [strStartsSep_of_data _ 'e' _ (exec_tag_data e)]
  decide

theorem execution_dir_data (ctx : NodeContext) (e : Int) :
    (execution_dir ctx e).data =
      (node_dir ctx).data ++ sepOf (node_dir ctx) ++
        ("execution_".data ++ (pyStr e).data) := by
  unfold execution_dir
  rw [pathJoin_data _ _ (strStartsSep_exec_tag e), String.data_append]

theorem execution_dir_snoc (ctx : NodeContext) (e : Int) :
    ∃ pre d, (execution_dir ctx e).data = pre ++ [d] ∧ d ≠ '/' := by
  obtain ⟨p, d, hp, hd⟩ := pyStr_snoc e
  refine ⟨(node_dir ctx).data ++ sepOf (node_dir ctx) ++ "execution_".data ++ p, d, ?_, hd⟩
  rw [execution_dir_data, hp]
  simp [List.append_assoc]

theorem execution_dir_ne_empty (ctx : NodeContext) (e : Int) :
    execution_dir ctx e ≠ "" := by
  obtain ⟨pre, d, hp, _⟩ := execution_dir_snoc ctx e
  apply data_ne_nil_ne_empty
  rw [hp]
  simp

theorem execution_dir_not_endsep (ctx : NodeContext) (e : Int) :
    strEndsSep (execution_dir ctx e) = false := by
  obtain ⟨pre, d, hp, hd⟩ := execution_dir_snoc ctx e
  unfold strEndsSep
  rw [hp, lastIsSep_snoc]
  simpa using hd

/-- Every uri generated for execution id `e` (with a key that does not
start with a slash) extends `execution_dir ctx e` followed by a slash. -/
theorem mkArtifact_uri_shape (ctx : NodeContext) (e : Int) (key : String)
    (isVal : Bool) (hk : strStartsSep key = false) :
    ∃ r, (mkArtifact ctx e key isVal).uri.data =
      (node_dir ctx).data ++ sepOf (node_dir ctx) ++ "execution_".data ++
        (pyStr e).data ++ '/' :: r := by
  have hsep : sepOf (execution_dir ctx e) = ['/'] := by
    unfold sepOf
    rw [if_neg (execution_dir_ne_empty ctx e),
      if_neg (by simp [execution_dir_not_endsep ctx e])]
  have hbase : (pathJoin (execution_dir ctx e) key).data =
      (execution_dir ctx e).data ++ '/' :: key.data := by
    rw [pathJoin_data _ _ hk, hsep]
    simp
  cases isVal with
  | false =>
      refine ⟨key.data, ?_⟩
      show (pathJoin (execution_dir ctx e) key).data = _
      rw [hbase, execution_dir_data]
      simp [List.append_assoc]
  | true =>
      refine ⟨key.data ++ sepOf (pathJoin (execution_dir ctx e) key) ++
        "value".data, ?_⟩
      show (pathJoin (pathJoin (execution_dir ctx e) key) "value").data = _
      rw [pathJoin_data _ _ (by decide), hbase, execution_dir_data]
      simp [List.append_assoc]

/-- Distinct execution ids yield distinct uris, whatever the keys and
artifact kinds, as long as no key starts with a slash. -/
theorem mkArtifact_uri_ne (ctx : NodeContext) (e1 e2 : Int)
    (k1 k2 : String) (v1 v2 : Bool) (hne : e1 ≠ e2)
    (h1 : strStartsSep k1 = false) (h2 : strStartsSep k2 = false) :
    (mkArtifact ctx e1 k1 v1).uri ≠ (mkArtifact ctx e2 k2 v2).uri := by
  intro heq
  obtain ⟨r1, hr1⟩ := mkArtifact_uri_shape ctx e1 k1 v1 h1
  obtain ⟨r2, hr2⟩ := mkArtifact_uri_shape ctx e2 k2 v2 h2
  have hd := congrArg String.data heq
  rw [hr1, hr2] at hd
  simp only [List.append_assoc, List.append_cancel_left_eq] at hd
  have := sep_split (pyStr e1).data (pyStr e2).data r1 r2
    (pyStr_chars e1) (pyStr_chars e2) hd
  exact hne (pyStr_inj e1 e2 (String.ext this.1))

theorem mem_urisOf_gen (ctx : NodeContext) (e : Int) (u : String) :
    u ∈ urisOf (generate_output_artifacts ctx e) ↔
      ∃ kv ∈ ctx.outputs, u = (mkArtifact ctx e kv.1 kv.2).uri := by
  unfold urisOf generate_output_artifacts
  simp only [List.map_map, List.mem_join, List.mem_map, Function.comp]
  constructor
  · rintro ⟨l, ⟨kv, hkv, rfl⟩, hu⟩
    simp at hu
    exact ⟨kv, hkv, hu⟩
  · rintro ⟨kv, hkv, rfl⟩
    exact ⟨[(mkArtifact ctx e kv.1 kv.2).uri], ⟨kv, hkv, rfl⟩, by simp⟩

theorem namesOf_gen (ctx : NodeContext) (e : Int) :
    namesOf (generate_output_artifacts ctx e) =
      ctx.outputs.map (fun kv => (kv.1, [artifactName ctx kv.1])) := by
  unfold namesOf generate_output_artifacts
  simp [List.map_map, Function.comp, mkArtifact]

/-- C1 (amended): for a fixed node context all of whose output keys are
relative (no key starts with a slash) and distinct execution ids
`e1 ≠ e2`, the uri sets returned by `generate_output_artifacts` are
disjoint, while for every output key the artifact names returned for
`e1` and for `e2` are identical. -/
theorem generate_output_artifacts_disjoint_uris_stable_names
    (ctx : NodeContext) (e1 e2 : Int) (hne : e1 ≠ e2)
    (hkeys : ∀ kv ∈ ctx.outputs, strStartsSep kv.1 = false) :
    (∀ u, u ∈ urisOf (generate_output_artifacts ctx e1) →
      u ∉ urisOf (generate_output_artifacts ctx e2)) ∧
    namesOf (generate_output_artifacts ctx e1) =
      namesOf (generate_output_artifacts ctx e2) := by
  constructor
  · intro u h1 h2
    obtain ⟨kv1, hkv1, rfl⟩ := (mem_urisOf_gen ctx e1 u).mp h1
    obtain ⟨kv2, hkv2, heq⟩ := (mem_urisOf_gen ctx e2 _).mp h2
    exact mkArtifact_uri_ne ctx e1 e2 kv1.1 kv2.1 kv1.2 kv2.2 hne
      (hkeys kv1 hkv1) (hkeys kv2 hkv2) heq
  · rw [namesOf_gen, namesOf_gen]

/-- A node context whose single output key is an absolute path: with
posixpath join semantics the key replaces everything before it. -/
def ctxAbsKey : NodeContext :=
  { pipeline_id := "p", pipeline_run_id := "r", pipeline_root := "root",
    node_id := "n", outputs := [("/k", false)] }

/-- C1 counterexample: with output key `/k` the uri sets for execution
ids 0 and 1 both contain `/k`, so they are not disjoint although the
execution ids differ. -/
theorem generate_output_artifacts_disjoint_uris_cex :
    (0 : Int) ≠ 1 ∧
    "/k" ∈ urisOf (generate_output_artifacts ctxAbsKey 0) ∧
    "/k" ∈ urisOf (generate_output_artifacts ctxAbsKey 1) := by decide

/-- A well-formed example context with a value-kind and a non-value
output. -/
def ctxTrainer : NodeContext :=
  { pipeline_id := "pipe1", pipeline_run_id := "run1",
    pipeline_root := "gs://bucket/pipe", node_id := "Trainer",
    outputs := [("model", true), ("stats", false)] }

/-- C1 witness: the amended theorem applied to a concrete context and
execution ids 7 and 8. -/
theorem generate_output_artifacts_disjoint_uris_witness :
    ((7 : Int) ≠ 8 ∧ ∀ kv ∈ ctxTrainer.outputs, strStartsSep kv.1 = false) ∧
    ((∀ u, u ∈ urisOf (generate_output_artifacts ctxTrainer 7) →
        u ∉ urisOf (generate_output_artifacts ctxTrainer 8)) ∧
      namesOf (generate_output_artifacts ctxTrainer 7) =
        namesOf (generate_output_artifacts ctxTrainer 8)) :=
  ⟨⟨by decide, by decide⟩,
    generate_output_artifacts_disjoint_uris_stable_names ctxTrainer 7 8
      (by decide) (by decide)⟩

/-- The node context of the spec's worked example: pipeline `pipe1`, run
`run1`, root `gs://bucket/pipe`, node `Trainer`, one value-kind output
keyed `model`. -/
def ctxC3 : NodeContext :=
  { pipeline_id := "pipe1", pipeline_run_id := "run1",
    pipeline_root := "gs://bucket/pipe", node_id := "Trainer",
    outputs := [("model", true)] }

/-- C3 counterexample: for the example inputs the generated uri is
`gs://bucket/pipe/Trainer/execution_7/model/value` (the value-artifact
file name is appended), not `gs://bucket/pipe/Trainer/execution_7/model`
as the claim states. -/
theorem generate_output_artifacts_example_cex :
    generate_output_artifacts ctxC3 7 =
      [("model",
        [{ uri := "gs://bucket/pipe/Trainer/execution_7/model/value",
           name := "pipe1:run1:Trainer:model:0", isValue := true }])] ∧
    ("gs://bucket/pipe/Trainer/execution_7/model/value" : String) ≠
      "gs://bucket/pipe/Trainer/execution_7/model" := by decide

/-- C3 (amended): for the example inputs, `generate_output_artifacts`
returns the single artifact with uri
`gs://bucket/pipe/Trainer/execution_7/model/value` and name
`pipe1:run1:Trainer:model:0`. -/
theorem generate_output_artifacts_example :
    urisOf (generate_output_artifacts ctxC3 7) =
      ["gs://bucket/pipe/Trainer/execution_7/model/value"] ∧
    namesOf (generate_output_artifacts ctxC3 7) =
      [("model", ["pipe1:run1:Trainer:model:0"])] := by decide

/-! ### Literal path computations -/

theorem data_nil_empty (s : String) (h : s.data = []) : s = "" :=
  String.ext (by rw [h])

theorem ne_empty_data_ne_nil (s : String) (h : s ≠ "") : s.data ≠ [] :=
  fun hd => h (data_nil_empty s hd)

theorem append_ne_empty (a b : String) (hb : b ≠ "") : a ++ b ≠ "" := by
  apply data_ne_nil_ne_empty
  rw [String.data_append]
  intro h
  exact ne_empty_data_ne_nil b hb (List.append_eq_nil.mp h).2

theorem strEndsSep_append (a b : String) (hb : b ≠ "") :
    strEndsSep (a ++ b) = strEndsSep b := by
  unfold strEndsSep
  rw [String.data_append]
  exact lastIsSep_append_right _ _ (ne_empty_data_ne_nil b hb)

theorem isdir_makedirs_self (fs : FS) (d : String) (hd : d ≠ "") :
    (fs.makedirs d).isdir d = true := by
  unfold FS.makedirs FS.isdir mkdirChain
  simp only [hd, if_false]
  split
  · simp [memStr]
  · simp [memStr]

theorem node_dir_literal (ctx : NodeContext)
    (hroot : ctx.pipeline_root ≠ "") (hroote : strEndsSep ctx.pipeline_root = false)
    (hnodes : strStartsSep ctx.node_id = false) :
    node_dir ctx = ctx.pipeline_root ++ "/" ++ ctx.node_id :=
  pathJoin_simple _ _ hnodes hroot hroote

/-- C6: `generate_output_artifacts` performs no filesystem operation: the
state-threaded loop returns the filesystem unchanged and its result is
the pure string computation `generate_output_artifacts`, for every
execution id and every filesystem state. -/
theorem generate_output_artifacts_fs_pure (ctx : NodeContext) (e : Int) (fs : FS) :
    (generate_output_artifacts_fs ctx e fs).1 = fs ∧
    (generate_output_artifacts_fs ctx e fs).2 = generate_output_artifacts ctx e := by
  have haux : ∀ (l : List (String × Bool)) (acc : List (String × List ArtifactD)),
      l.foldl (fun st kv =>
          (st.1, st.2 ++ [(kv.1, [mkArtifact ctx e kv.1 kv.2])])) (fs, acc) =
        (fs, acc ++ l.map (fun kv => (kv.1, [mkArtifact ctx e kv.1 kv.2]))) := by
    intro l
    induction l with
    | nil => intro acc; simp
    | cons kv t ih =>
        intro acc
        rw [List.foldl_cons, ih]
        simp
  unfold generate_output_artifacts_fs generate_output_artifacts
  rw [haux ctx.outputs []]
  simp

/-- C2: `get_stateful_working_directory` returns the path
`root/node_id/pipeline_run_id/stateful_working_dir` (for well-formed
path components) and creates that directory.  The operation takes no
execution id at all, so the returned path is the same across all
execution attempts of the run. -/
theorem get_stateful_working_directory_spec (ctx : NodeContext) (fs : FS)
    (hroot : ctx.pipeline_root ≠ "") (hroote : strEndsSep ctx.pipeline_root = false)
    (hnodes : strStartsSep ctx.node_id = false) (hnode : ctx.node_id ≠ "")
    (hnodee : strEndsSep ctx.node_id = false)
    (hruns : strStartsSep ctx.pipeline_run_id = false) (hrun : ctx.pipeline_run_id ≠ "")
    (hrune : strEndsSep ctx.pipeline_run_id = false) :
    (get_stateful_working_directory ctx fs).2 =
      ctx.pipeline_root ++ "/" ++ ctx.node_id ++ "/" ++ ctx.pipeline_run_id ++
        "/" ++ "stateful_working_dir" ∧
    (get_stateful_working_directory ctx fs).1.isdir
      ((get_stateful_working_directory ctx fs).2) = true := by
  have hnd : node_dir ctx = ctx.pipeline_root ++ "/" ++ ctx.node_id :=
    node_dir_literal ctx hroot hroote hnodes
  have hndne : node_dir ctx ≠ "" := by rw [hnd]; exact append_ne_empty _ _ hnode
  have hnde : strEndsSep (node_dir ctx) = false := by
    rw [hnd, show ctx.pipeline_root ++ "/" ++ ctx.node_id =
      (ctx.pipeline_root ++ "/") ++ ctx.node_id from rfl,
      strEndsSep_append _ _ hnode]
    exact hnodee
  have hstep : pathJoin (node_dir ctx) ctx.pipeline_run_id =
      node_dir ctx ++ "/" ++ ctx.pipeline_run_id :=
    pathJoin_simple _ _ hruns hndne hnde
  have hstepne : pathJoin (node_dir ctx) ctx.pipeline_run_id ≠ "" := by
    rw [hstep]; exact append_ne_empty _ _ hrun
  have hstepe : strEndsSep (pathJoin (node_dir ctx) ctx.pipeline_run_id) = false := by
    rw [hstep, show node_dir ctx ++ "/" ++ ctx.pipeline_run_id =
      (node_dir ctx ++ "/") ++ ctx.pipeline_run_id from rfl,
      strEndsSep_append _ _ hrun]
    exact hrune
  have hpath : stateful_dir_path ctx =
      ctx.pipeline_root ++ "/" ++ ctx.node_id ++ "/" ++ ctx.pipeline_run_id ++
        "/" ++ "stateful_working_dir" := by
    unfold stateful_dir_path
    rw [pathJoin_simple _ _ (by decide) hstepne hstepe, hstep, hnd]
  refine ⟨hpath, ?_⟩
  show (fs.makedirs (stateful_dir_path ctx)).isdir (stateful_dir_path ctx) = true
  apply isdir_makedirs_self
  rw [hpath]
  exact append_ne_empty _ _ (by decide)

/-- C2 witness: the theorem applied to the concrete Trainer context. -/
theorem get_stateful_working_directory_witness :
    (ctxTrainer.pipeline_root ≠ "" ∧ strEndsSep ctxTrainer.pipeline_root = false ∧
      strStartsSep ctxTrainer.node_id = false ∧ ctxTrainer.node_id ≠ "" ∧
      strEndsSep ctxTrainer.node_id = false ∧
      strStartsSep ctxTrainer.pipeline_run_id = false ∧
      ctxTrainer.pipeline_run_id ≠ "" ∧
      strEndsSep ctxTrainer.pipeline_run_id = false) ∧
    ((get_stateful_working_directory ctxTrainer emptyFS).2 =
      ctxTrainer.pipeline_root ++ "/" ++ ctxTrainer.node_id ++ "/" ++
        ctxTrainer.pipeline_run_id ++ "/" ++ "stateful_working_dir" ∧
    (get_stateful_working_directory ctxTrainer emptyFS).1.isdir
      ((get_stateful_working_directory ctxTrainer emptyFS).2) = true) :=
  ⟨by decide,
    get_stateful_working_directory_spec ctxTrainer emptyFS (by decide) (by decide)
      (by decide) (by decide) (by decide) (by decide) (by decide) (by decide)⟩

/-- C7: `get_executor_output_uri` returns
`root/node_id/execution_<execution_id>/executor_output.pb` (for
well-formed root and node id), the parent directory of the returned path
is exactly the execution directory, and that directory exists in the
filesystem state after the call. -/
theorem get_executor_output_uri_spec (ctx : NodeContext) (e : Int) (fs : FS)
    (hroot : ctx.pipeline_root ≠ "") (hroote : strEndsSep ctx.pipeline_root = false)
    (hnodes : strStartsSep ctx.node_id = false) (hnode : ctx.node_id ≠ "")
    (hnodee : strEndsSep ctx.node_id = false) :
    (get_executor_output_uri ctx e fs).2 =
      ctx.pipeline_root ++ "/" ++ ctx.node_id ++ "/" ++ ("execution_" ++ pyStr e) ++
        "/" ++ "executor_output.pb" ∧
    dirname (get_executor_output_uri ctx e fs).2 = execution_dir ctx e ∧
    (get_executor_output_uri ctx e fs).1.isdir (execution_dir ctx e) = true := by
  have hnd : node_dir ctx = ctx.pipeline_root ++ "/" ++ ctx.node_id :=
    node_dir_literal ctx hroot hroote hnodes
  have hndne : node_dir ctx ≠ "" := by rw [hnd]; exact append_ne_empty _ _ hnode
  have hnde : strEndsSep (node_dir ctx) = false := by
    rw [hnd, show ctx.pipeline_root ++ "/" ++ ctx.node_id =
      (ctx.pipeline_root ++ "/") ++ ctx.node_id from rfl,
      strEndsSep_append _ _ hnode]
    exact hnodee
  have hexec : execution_dir ctx e = node_dir ctx ++ "/" ++ ("execution_" ++ pyStr e) :=
    pathJoin_simple _ _ (strStartsSep_exec_tag e) hndne hnde
  have huri : (get_executor_output_uri ctx e fs).2 =
      execution_dir ctx e ++ "/" ++ "executor_output.pb" := by
    show pathJoin (execution_dir ctx e) "executor_output.pb" = _
    exact pathJoin_simple _ _ (by decide) (execution_dir_ne_empty ctx e)
      (execution_dir_not_endsep ctx e)
  refine ⟨?_, ?_, ?_⟩
  · rw [huri, hexec, hnd]
  · rw [huri]
    unfold dirname
    have hdata : (execution_dir ctx e ++ "/" ++ "executor_output.pb").data =
        (execution_dir ctx e).data ++ '/' :: ("executor_output.pb".data) := by
      rw [String.data_append, String.data_append]
      simp
    rw [hdata, dirnameL_append _ _
      (ne_empty_data_ne_nil _ (execution_dir_ne_empty ctx e))
      (execution_dir_not_endsep ctx e) (by decide)]
  · exact isdir_makedirs_self fs _ (execution_dir_ne_empty ctx e)

/-- C7 witness: the theorem applied to the Trainer context with
execution id 7 on the empty filesystem. -/
theorem get_executor_output_uri_witness :
    (ctxTrainer.pipeline_root ≠ "" ∧ strEndsSep ctxTrainer.pipeline_root = false ∧
      strStartsSep ctxTrainer.node_id = false ∧ ctxTrainer.node_id ≠ "" ∧
      strEndsSep ctxTrainer.node_id = false) ∧
    ((get_executor_output_uri ctxTrainer 7 emptyFS).2 =
      ctxTrainer.pipeline_root ++ "/" ++ ctxTrainer.node_id ++ "/" ++
        ("execution_" ++ pyStr 7) ++ "/" ++ "executor_output.pb" ∧
    dirname (get_executor_output_uri ctxTrainer 7 emptyFS).2 =
      execution_dir ctxTrainer 7 ∧
    (get_executor_output_uri ctxTrainer 7 emptyFS).1.isdir
      (execution_dir ctxTrainer 7) = true) :=
  ⟨by decide,
    get_executor_output_uri_spec ctxTrainer 7 emptyFS (by decide) (by decide)
      (by decide) (by decide) (by decide)⟩

/-- C4: for every output key declared as a value artifact (and
well-formed path components), the generated uri is
`root/node_id/execution_<execution_id>/<output_key>/value`: the fixed
file name segment `value` is appended after the key. -/
theorem generate_output_artifacts_value_uri (ctx : NodeContext) (e : Int)
    (key : String) (hk : (key, true) ∈ ctx.outputs)
    (hroot : ctx.pipeline_root ≠ "") (hroote : strEndsSep ctx.pipeline_root = false)
    (hnodes : strStartsSep ctx.node_id = false) (hnode : ctx.node_id ≠ "")
    (hnodee : strEndsSep ctx.node_id = false)
    (hkeys : strStartsSep key = false) (hkey : key ≠ "")
    (hkeye : strEndsSep key = false) :
    (key, [mkArtifact ctx e key true]) ∈ generate_output_artifacts ctx e ∧
    (mkArtifact ctx e key true).uri =
      ctx.pipeline_root ++ "/" ++ ctx.node_id ++ "/" ++ ("execution_" ++ pyStr e) ++
        "/" ++ key ++ "/" ++ "value" := by
  constructor
  · exact List.mem_map_of_mem _ hk
  · have hnd : node_dir ctx = ctx.pipeline_root ++ "/" ++ ctx.node_id :=
      node_dir_literal ctx hroot hroote hnodes
    have hndne : node_dir ctx ≠ "" := by rw [hnd]; exact append_ne_empty _ _ hnode
    have hnde : strEndsSep (node_dir ctx) = false := by
      rw [hnd, show ctx.pipeline_root ++ "/" ++ ctx.node_id =
        (ctx.pipeline_root ++ "/") ++ ctx.node_id from rfl,
        strEndsSep_append _ _ hnode]
      exact hnodee
    have hexec : execution_dir ctx e =
        node_dir ctx ++ "/" ++ ("execution_" ++ pyStr e) :=
      pathJoin_simple _ _ (strStartsSep_exec_tag e) hndne hnde
    have hbase : pathJoin (execution_dir ctx e) key =
        execution_dir ctx e ++ "/" ++ key :=
      pathJoin_simple _ _ hkeys (execution_dir_ne_empty ctx e)
        (execution_dir_not_endsep ctx e)
    have hbasene : pathJoin (execution_dir ctx e) key ≠ "" := by
      rw [hbase]; exact append_ne_empty _ _ hkey
    have hbasee : strEndsSep (pathJoin (execution_dir ctx e) key) = false := by
      rw [hbase, show execution_dir ctx e ++ "/" ++ key =
        (execution_dir ctx e ++ "/") ++ key from rfl,
        strEndsSep_append _ _ hkey]
      exact hkeye
    show pathJoin (pathJoin (execution_dir ctx e) key) "value" = _
    rw [pathJoin_simple _ _ (by decide) hbasene hbasee, hbase, hexec, hnd]

/-- The spec example context for C4: a single value-kind output keyed
`accuracy`. -/
def ctxC4 : NodeContext :=
  { pipeline_id := "pipe1", pipeline_run_id := "run1",
    pipeline_root := "gs://bucket/pipe", node_id := "Trainer",
    outputs := [("accuracy", true)] }

/-- C4 witness: at the example inputs the theorem yields the uri
`gs://bucket/pipe/Trainer/execution_7/accuracy/value`. -/
theorem generate_output_artifacts_value_uri_witness :
    (("accuracy", true) ∈ ctxC4.outputs ∧
      ctxC4.pipeline_root ≠ "" ∧ strEndsSep ctxC4.pipeline_root = false ∧
      strStartsSep ctxC4.node_id = false ∧ ctxC4.node_id ≠ "" ∧
      strEndsSep ctxC4.node_id = false ∧
      strStartsSep "accuracy" = false ∧ ("accuracy" : String) ≠ "" ∧
      strEndsSep "accuracy" = false) ∧
    (("accuracy", [mkArtifact ctxC4 7 "accuracy" true]) ∈
        generate_output_artifacts ctxC4 7 ∧
      (mkArtifact ctxC4 7 "accuracy" true).uri =
        ctxC4.pipeline_root ++ "/" ++ ctxC4.node_id ++ "/" ++
          ("execution_" ++ pyStr 7) ++ "/" ++ "accuracy" ++ "/" ++ "value") ∧
    (mkArtifact ctxC4 7 "accuracy" true).uri =
      "gs://bucket/pipe/Trainer/execution_7/accuracy/value" :=
  ⟨by decide,
    generate_output_artifacts_value_uri ctxC4 7 "accuracy" (by decide) (by decide)
      (by decide) (by decide) (by decide) (by decide) (by decide) (by decide)
      (by decide),
    by decide⟩

/-! ### Storage lifecycle: creation and removal -/

theorem lookupFile_setFile (l : List (String × String)) (u c : String) (x : String) :
    lookupFile (setFile l u c) x = if x = u then some c else lookupFile l x := by
  induction l with
  | nil =>
      by_cases hx : x = u
      · subst hx; simp [setFile, lookupFile]
      · have hx' : ¬ u = x := fun h => hx h.symm
        simp [setFile, lookupFile, hx, hx']
  | cons pc rest ih =>
      obtain ⟨p, pcnt⟩ := pc
      by_cases hp : p = u
      · subst hp
        by_cases hx : x = p
        · subst hx
          simp [setFile, lookupFile]
        · have hx' : ¬ p = x := fun h => hx h.symm
          simp [setFile, lookupFile, hx, hx']
      · by_cases hxp : x = p
        · have hxu : ¬ x = u := fun h => hp (hxp.symm.trans h)
          have hpx : p = x := hxp.symm
          simp [setFile, lookupFile, hp, hxu, hpx]
        · have hpx : ¬ p = x := fun h => hxp h.symm
          simp [setFile, lookupFile, hp, hpx, ih]

theorem lookupFile_delFile (l : List (String × String)) (u x : String) :
    lookupFile (delFile l u) x = if x = u then none else lookupFile l x := by
  induction l with
  | nil => simp [delFile, lookupFile]
  | cons pc rest ih =>
      obtain ⟨p, pcnt⟩ := pc
      by_cases hp : p = u
      · subst hp
        by_cases hx : x = p
        · subst hx
          simp [delFile, lookupFile, ih]
        · have hx' : ¬ p = x := fun h => hx h.symm
          simp [delFile, lookupFile, hx, hx', ih]
      · by_cases hxp : x = p
        · have hxu : ¬ x = u := fun h => hp (hxp.symm.trans h)
          have hpx : p = x := hxp.symm
          simp [delFile, lookupFile, hp, hxu, hpx]
        · have hpx : ¬ p = x := fun h => hxp h.symm
          simp [delFile, lookupFile, hp, hpx, ih]

theorem lookupFile_filter (l : List (String × String)) (pred : String → Bool)
    (x : String) :
    lookupFile (l.filter (fun pc => pred pc.1)) x =
      if pred x then lookupFile l x else none := by
  induction l with
  | nil => simp [lookupFile]
  | cons pc rest ih =>
      obtain ⟨p, pcnt⟩ := pc
      by_cases hp : pred p
      · by_cases hxp : p = x
        · subst hxp
          simp [List.filter_cons, hp, lookupFile]
        · simp [List.filter_cons, hp, lookupFile, hxp, ih]
      · by_cases hxp : p = x
        · subst hxp
          simp [List.filter_cons, hp, lookupFile, ih]
        · simp [List.filter_cons, hp, lookupFile, hxp, ih]

theorem memStr_filter (l : List String) (pred : String → Bool) (x : String) :
    memStr (l.filter pred) x = if pred x then memStr l x else false := by
  induction l with
  | nil => simp [memStr]
  | cons p rest ih =>
      by_cases hp : pred p
      · by_cases hxp : p = x
        · subst hxp
          simp [List.filter_cons, hp, memStr]
        · simp [List.filter_cons, hp, memStr, hxp, ih]
      · by_cases hxp : p = x
        · subst hxp
          simp [List.filter_cons, hp, memStr, ih]
        · simp [List.filter_cons, hp, memStr, hxp, ih]

theorem isUnder_self (d : String) : isUnder d d = true := by
  simp [isUnder]

theorem mem_allArtifacts (output_dict : List (String × List ArtifactD))
    (a : ArtifactD) :
    a ∈ allArtifacts output_dict ↔ ∃ kv ∈ output_dict, a ∈ kv.2 := by
  unfold allArtifacts
  simp only [List.mem_join, List.mem_map]
  constructor
  · rintro ⟨l, ⟨kv, hkv, rfl⟩, ha⟩
    exact ⟨kv, hkv, ha⟩
  · rintro ⟨kv, hkv, ha⟩
    exact ⟨kv.2, ⟨kv, hkv, rfl⟩, ha⟩

theorem makeArtifactStorage_files (fs : FS) (b : ArtifactD) (u : String) :
    lookupFile (makeArtifactStorage fs b).files u =
      if b.isValue = true ∧ u = b.uri then some "" else lookupFile fs.files u := by
  unfold makeArtifactStorage FS.writeFile FS.makedirs
  by_cases hv : b.isValue = true
  · simp only [hv, if_true, true_and]
    rw [lookupFile_setFile]
  · simp [hv]

theorem foldl_make_files (l : List ArtifactD) : ∀ (fs : FS) (u : String),
    lookupFile ((l.foldl makeArtifactStorage fs).files) u =
      if ∃ a ∈ l, a.isValue = true ∧ a.uri = u then some ""
      else lookupFile fs.files u := by
  induction l with
  | nil => intro fs u; simp
  | cons b t ih =>
      intro fs u
      rw [List.foldl_cons, ih]
      by_cases ht : ∃ a ∈ t, a.isValue = true ∧ a.uri = u
      · have hcons : ∃ a ∈ b :: t, a.isValue = true ∧ a.uri = u := by
          obtain ⟨a, ha, hprop⟩ := ht
          exact ⟨a, by simp [ha], hprop⟩
        rw [if_pos ht, if_pos hcons]
      · rw [if_neg ht, makeArtifactStorage_files]
        by_cases hb : b.isValue = true ∧ u = b.uri
        · have hcons : ∃ a ∈ b :: t, a.isValue = true ∧ a.uri = u :=
            ⟨b, by simp, hb.1, hb.2.symm⟩
          rw [if_pos hb, if_pos hcons]
        · have hcons : ¬ ∃ a ∈ b :: t, a.isValue = true ∧ a.uri = u := by
            rintro ⟨a, ha, hv, hu⟩
            rcases List.mem_cons.mp ha with rfl | ha
            · exact hb ⟨hv, hu.symm⟩
            · exact ht ⟨a, ha, hv, hu⟩
          rw [if_neg hb, if_neg hcons]

/-- C10: after `make_output_dirs`, the file at every value-kind
artifact's uri exists with empty contents (any prior contents are
overwritten), while the contents of every path that is not the uri of a
value-kind artifact in the dict are untouched. -/
theorem make_output_dirs_value_files (output_dict : List (String × List ArtifactD))
    (fs : FS) :
    (∀ kv ∈ output_dict, ∀ a ∈ kv.2, a.isValue = true →
      lookupFile (make_output_dirs output_dict fs).files a.uri = some "") ∧
    (∀ p : String, (∀ kv ∈ output_dict, ∀ a ∈ kv.2, a.isValue = true → a.uri ≠ p) →
      lookupFile (make_output_dirs output_dict fs).files p = lookupFile fs.files p) := by
  constructor
  · intro kv hkv a ha hv
    unfold make_output_dirs
    rw [foldl_make_files]
    have : ∃ b ∈ allArtifacts output_dict, b.isValue = true ∧ b.uri = a.uri :=
      ⟨a, (mem_allArtifacts output_dict a).mpr ⟨kv, hkv, ha⟩, hv, rfl⟩
    simp only [this, if_true]
  · intro p hp
    unfold make_output_dirs
    rw [foldl_make_files]
    have : ¬ ∃ b ∈ allArtifacts output_dict, b.isValue = true ∧ b.uri = p := by
      rintro ⟨b, hb, hv, hu⟩
      obtain ⟨kv, hkv, hbkv⟩ := (mem_allArtifacts output_dict b).mp hb
      exact hp kv hkv b hbkv hv hu
    simp only [this, if_false]

theorem lookupFile_rmtree_files (l : List (String × String)) (d u : String) :
    lookupFile (l.filter (fun pc => ! isUnder d pc.1)) u =
      if isUnder d u then none else lookupFile l u := by
  induction l with
  | nil => simp [lookupFile]
  | cons pc rest ih =>
      obtain ⟨p, c⟩ := pc
      by_cases hp : isUnder d p
      · by_cases hpu : p = u
        · subst hpu
          simp [List.filter_cons, hp, ih]
        · simp [List.filter_cons, hp, lookupFile, hpu, ih]
      · by_cases hpu : p = u
        · subst hpu
          simp [List.filter_cons, hp, lookupFile, ih]
        · simp [List.filter_cons, hp, lookupFile, hpu, ih]

theorem removeArtifactStorage_absent (fs : FS) (a : ArtifactD) (fs1 : FS)
    (h : removeArtifactStorage fs a = Except.ok fs1) :
    fs1.fileExists a.uri = false ∧ fs1.isdir a.uri = false := by
  unfold removeArtifactStorage at h
  by_cases hd : fs.isdir a.uri = true
  · rw [if_pos hd] at h
    have hfs1 : fs1 = fs.rmtree a.uri := (Except.ok.injEq _ _ ▸ h).symm
    subst hfs1
    constructor
    · unfold FS.fileExists FS.rmtree
      dsimp only
      rw [lookupFile_rmtree_files]
      simp [isUnder_self]
    · unfold FS.isdir FS.rmtree
      dsimp only
      rw [memStr_filter]
      simp [isUnder_self]
  · rw [if_neg hd] at h
    by_cases hf : fs.fileExists a.uri = true
    · rw [if_pos hf] at h
      have hfs1 : fs1 = fs.removeFile a.uri := (Except.ok.injEq _ _ ▸ h).symm
      subst hfs1
      constructor
      · unfold FS.fileExists FS.removeFile
        rw [lookupFile_delFile]
        simp
      · unfold FS.isdir FS.removeFile
        simpa using hd
    · rw [if_neg hf] at h
      exact absurd h (by simp)

theorem removeArtifactStorage_mono (fs : FS) (a : ArtifactD) (fs1 : FS)
    (u : String) (h : removeArtifactStorage fs a = Except.ok fs1)
    (hf : fs.fileExists u = false) (hd : fs.isdir u = false) :
    fs1.fileExists u = false ∧ fs1.isdir u = false := by
  unfold removeArtifactStorage at h
  by_cases hdir : fs.isdir a.uri = true
  · rw [if_pos hdir] at h
    have hfs1 : fs1 = fs.rmtree a.uri := (Except.ok.injEq _ _ ▸ h).symm
    subst hfs1
    constructor
    · unfold FS.fileExists FS.rmtree
      dsimp only
      rw [lookupFile_rmtree_files]
      unfold FS.fileExists at hf
      split
      · simp
      · exact hf
    · unfold FS.isdir FS.rmtree
      dsimp only
      rw [memStr_filter]
      unfold FS.isdir at hd
      split
      · exact hd
      · rfl
  · rw [if_neg hdir] at h
    by_cases hfile : fs.fileExists a.uri = true
    · rw [if_pos hfile] at h
      have hfs1 : fs1 = fs.removeFile a.uri := (Except.ok.injEq _ _ ▸ h).symm
      subst hfs1
      constructor
      · unfold FS.fileExists FS.removeFile
        rw [lookupFile_delFile]
        unfold FS.fileExists at hf
        split
        · simp
        · exact hf
      · exact hd
    · rw [if_neg hfile] at h
      exact absurd h (by simp)

theorem removeAll_mono (l : List ArtifactD) : ∀ (fs fs' : FS) (u : String),
    removeAll l fs = Except.ok fs' → fs.fileExists u = false →
    fs.isdir u = false → fs'.fileExists u = false ∧ fs'.isdir u = false := by
  induction l with
  | nil =>
      intro fs fs' u h hf hd
      unfold removeAll at h
      have : fs' = fs := (Except.ok.injEq _ _ ▸ h).symm
      subst this
      exact ⟨hf, hd⟩
  | cons b t ih =>
      intro fs fs' u h hf hd
      unfold removeAll at h
      cases hstep : removeArtifactStorage fs b with
      | error e => rw [hstep] at h; exact absurd h (by simp)
      | ok fs1 =>
          rw [hstep] at h
          obtain ⟨hf1, hd1⟩ := removeArtifactStorage_mono fs b fs1 u hstep hf hd
          exact ih fs1 fs' u h hf1 hd1

theorem removeAll_absent (l : List ArtifactD) : ∀ (fs fs' : FS),
    removeAll l fs = Except.ok fs' → ∀ a ∈ l,
    fs'.fileExists a.uri = false ∧ fs'.isdir a.uri = false := by
  induction l with
  | nil => intro fs fs' _ a ha; exact absurd ha (by simp)
  | cons b t ih =>
      intro fs fs' h a ha
      unfold removeAll at h
      cases hstep : removeArtifactStorage fs b with
      | error e => rw [hstep] at h; exact absurd h (by simp)
      | ok fs1 =>
          rw [hstep] at h
          rcases List.mem_cons.mp ha with rfl | hat
          · obtain ⟨hf1, hd1⟩ := removeArtifactStorage_absent fs a fs1 hstep
            exact removeAll_mono t fs1 fs' a.uri h hf1 hd1
          · exact ih fs1 fs' h a hat

/-- C5: when `make_output_dirs` and then `remove_output_dirs` are run on
the same output dict and the removal completes without raising, no
artifact's storage object survives: for every artifact of the dict, its
uri afterwards names neither a file nor a directory. -/
theorem make_then_remove_no_trace (output_dict : List (String × List ArtifactD))
    (fs0 fs' : FS)
    (h : remove_output_dirs output_dict (make_output_dirs output_dict fs0) =
      Except.ok fs') :
    ∀ kv ∈ output_dict, ∀ a ∈ kv.2,
      fs'.fileExists a.uri = false ∧ fs'.isdir a.uri = false := by
  intro kv hkv a ha
  exact removeAll_absent (allArtifacts output_dict) _ fs' h a
    ((mem_allArtifacts output_dict a).mpr ⟨kv, hkv, ha⟩)

/-- A concrete output dict with one value-kind and one directory-kind
artifact. -/
def dictC5 : List (String × List ArtifactD) :=
  [("model", [{ uri := "n/e/model/value", name := "nm1", isValue := true }]),
   ("stats", [{ uri := "n/e/stats", name := "nm2", isValue := false }])]

/-- The filesystem state after creating and then removing `dictC5`
starting from the empty filesystem. -/
def fsAfterC5 : FS :=
  ((remove_output_dirs dictC5 (make_output_dirs dictC5 emptyFS)).toOption).getD emptyFS

/-- C5 witness: on `dictC5` the removal succeeds and the theorem shows
both uris gone. -/
theorem make_then_remove_no_trace_witness :
    (remove_output_dirs dictC5 (make_output_dirs dictC5 emptyFS) =
      Except.ok fsAfterC5) ∧
    (∀ kv ∈ dictC5, ∀ a ∈ kv.2,
      fsAfterC5.fileExists a.uri = false ∧ fsAfterC5.isdir a.uri = false) :=
  ⟨rfl, make_then_remove_no_trace dictC5 emptyFS fsAfterC5 rfl⟩

/-! ### Embedding of `tfx/dsl/io/filesystem_registry.py` -/

/-- A filesystem plugin class: identified by name, declaring the uri
schemes it supports (`SUPPORTED_SCHEMES`). -/
structure FilesystemCls where
  clsName : String
  SUPPORTED_SCHEMES : List String
deriving DecidableEq

/-- `FilesystemRegistry` state: `_preferred_filesystem_by_scheme` and
`_filesystem_priority` (the registration lock guards mutation and has no
sequential effect). -/
structure FilesystemRegistry where
  preferred : List (String × FilesystemCls)
  priority : List (FilesystemCls × Int)
deriving DecidableEq

def emptyRegistry : FilesystemRegistry := { preferred := [], priority := [] }

/-- One iteration of the `register` loop: adopt `cls` as the preferred
class for `scheme` when the scheme has no preferred class yet or `cls`'s
priority number is strictly lower than the current preferred class's.
(A current preferred class always has a priority entry; the impossible
missing case leaves the map unchanged.) -/
def prefStep (pr : List (FilesystemCls × Int)) (cls : FilesystemCls)
    (priority : Int) (pref : List (String × FilesystemCls)) (scheme : String) :
    List (String × FilesystemCls) :=
  match dictGet pref scheme with
  | none => dictSet pref scheme cls
  | some cur =>
      match dictGet pr cur with
      | none => pref
      | some curP => if priority < curP then dictSet pref scheme cls else pref

/-- The `register` loop over `filesystem_cls.SUPPORTED_SCHEMES`. -/
def registerSchemes (pr : List (FilesystemCls × Int)) (cls : FilesystemCls)
    (priority : Int) :
    List String → List (String × FilesystemCls) → List (String × FilesystemCls)
  | [], pref => pref
  | scheme :: rest, pref =>
      registerSchemes pr cls priority rest (prefStep pr cls priority pref scheme)

/-- `FilesystemRegistry.register`: record the class's priority, then
update the preferred class of each scheme it supports. -/
def FilesystemRegistry.register (R : FilesystemRegistry) (cls : FilesystemCls)
    (priority : Int) : FilesystemRegistry :=
  let pr := dictSet R.priority cls priority
  { priority := pr,
    preferred := registerSchemes pr cls priority cls.SUPPORTED_SCHEMES R.preferred }

/-- Register a whole list of (class, priority) pairs in order on the
fresh registry. -/
def registerAll (regs : List (FilesystemCls × Int)) : FilesystemRegistry :=
  regs.foldl (fun R cp => R.register cp.1 cp.2) emptyRegistry

/-- Python `repr` of a plain string: the string between single quotes. -/
def pyRepr (s : String) : String :=
  String.singleton (Char.ofNat 39) ++ s ++ String.singleton (Char.ofNat 39)

/-- The message of the exception `get_filesystem_for_scheme` raises for
an unregistered scheme (`%r` interpolates the scheme's repr). -/
def schemeErrMsg (scheme : String) : String :=
  "The filesystem scheme " ++ pyRepr scheme ++
    " is not available for use. For expanded filesystem scheme support, " ++
    "install the " ++ String.singleton (Char.ofNat 96) ++ "tensorflow" ++
    String.singleton (Char.ofNat 96) ++
    " package to enable additional filesystem plugins."

/-- `FilesystemRegistry.get_filesystem_for_scheme`. -/
def get_filesystem_for_scheme (R : FilesystemRegistry) (scheme : String) :
    Except String FilesystemCls :=
  match dictGet R.preferred scheme with
  | none => Except.error (schemeErrMsg scheme)
  | some cls => Except.ok cls

/-- A character matched by the scheme pattern `[a-z0-9]`. -/
def isSchemeChar (c : Char) : Bool :=
  (decide ('a' ≤ c) && decide (c ≤ 'z')) || (decide ('0' ≤ c) && decide (c ≤ '9'))

/-- The scheme of a path per `re.match('^([a-z0-9]+://)', path)`: the
(nonempty) run of scheme characters followed by `://`, or the empty
(local) scheme when the pattern does not match. -/
def extractScheme (path : String) : String :=
  let run := path.data.takeWhile isSchemeChar
  if run ≠ [] ∧ List.isPrefixOf "://".data (path.data.drop run.length)
  then String.mk run ++ "://" else ""

/-- `FilesystemRegistry.get_filesystem_for_path`. -/
def get_filesystem_for_path (R : FilesystemRegistry) (path : String) :
    Except String FilesystemCls :=
  get_filesystem_for_scheme R (extractScheme path)


/-- Whether the `register` loop adopts `cls` for a scheme, as a function
of the scheme's current preferred class (`pr` already maps `cls` to the
priority being registered). -/
def takeB (pr : List (FilesystemCls × Int)) (priority : Int) :
    Option FilesystemCls → Bool
  | none => true
  | some cur =>
      match dictGet pr cur with
      | none => false
      | some curP => decide (priority < curP)

theorem dictGet_prefStep (pr : List (FilesystemCls × Int)) (cls : FilesystemCls)
    (priority : Int) (pref : List (String × FilesystemCls)) (s0 s : String) :
    dictGet (prefStep pr cls priority pref s0) s =
      if s = s0 ∧ takeB pr priority (dictGet pref s0) = true then some cls
      else dictGet pref s := by
  unfold prefStep
  cases hcur : dictGet pref s0 with
  | none =>
      dsimp only
      rw [dictGet_dictSet]
      by_cases hs : s = s0
      · subst hs
        simp [takeB, hcur]
      · simp [hs, takeB]
  | some cur =>
      dsimp only
      cases hpc : dictGet pr cur with
      | none =>
          dsimp only
          simp [takeB, hpc]
      | some curP =>
          dsimp only
          by_cases hlt : priority < curP
          · rw [if_pos hlt, dictGet_dictSet]
            by_cases hs : s = s0
            · subst hs
              simp [takeB, hpc, hlt, hcur]
            · simp [hs, takeB]
          · rw [if_neg hlt]
            simp [takeB, hpc, hlt]

theorem registerSchemes_get (pr : List (FilesystemCls × Int))
    (cls : FilesystemCls) (priority : Int) :
    ∀ (ss : List String) (pref : List (String × FilesystemCls)) (s : String),
    dictGet (registerSchemes pr cls priority ss pref) s =
      if s ∈ ss ∧ takeB pr priority (dictGet pref s) = true then some cls
      else dictGet pref s := by
  intro ss
  induction ss with
  | nil =>
      intro pref s
      simp [registerSchemes]
  | cons s0 rest ih =>
      intro pref s
      rw [show registerSchemes pr cls priority (s0 :: rest) pref =
        registerSchemes pr cls priority rest (prefStep pr cls priority pref s0)
        from rfl, ih, dictGet_prefStep]
      by_cases hs : s = s0
      · subst hs
        by_cases htk : takeB pr priority (dictGet pref s) = true
        · have hIF : (if s = s ∧ takeB pr priority (dictGet pref s) = true
              then some cls else dictGet pref s) = some cls := if_pos ⟨rfl, htk⟩
          have hL : (if s ∈ rest ∧ takeB pr priority (some cls) = true
              then some cls else some cls) = some cls := by split <;> rfl
          rw [hIF, hL, if_pos ⟨List.mem_cons_self s rest, htk⟩]
        · have hIF : (if s = s ∧ takeB pr priority (dictGet pref s) = true
              then some cls else dictGet pref s) = dictGet pref s :=
            if_neg (fun hc => htk hc.2)
          rw [hIF, if_neg (fun hc : s ∈ rest ∧ _ => htk hc.2),
            if_neg (fun hc : s ∈ s :: rest ∧ _ => htk hc.2)]
      · have hIF : (if s = s0 ∧ takeB pr priority (dictGet pref s0) = true
            then some cls else dictGet pref s) = dictGet pref s :=
          if_neg (fun hc => hs hc.1)
        rw [hIF]
        by_cases hcond : s ∈ rest ∧ takeB pr priority (dictGet pref s) = true
        · rw [if_pos hcond, if_pos ⟨List.mem_cons_of_mem s0 hcond.1, hcond.2⟩]
        · rw [if_neg hcond, if_neg (fun hc => hcond
            ⟨(List.mem_cons.mp hc.1).resolve_left hs, hc.2⟩)]

theorem takeB_some (pr : List (FilesystemCls × Int)) (p : Int)
    (cur : FilesystemCls) :
    takeB pr p (some cur) =
      match dictGet pr cur with
      | none => false
      | some curP => decide (p < curP) := rfl

/-- Invariant of the registry after registering exactly the pairs of
`regs` (each class at most once): the priority map holds exactly those
pairs, and each scheme's preferred class is a registered supporter of
minimal priority number, present exactly when a supporter is registered. -/
def RegInv (regs : List (FilesystemCls × Int)) (R : FilesystemRegistry) : Prop :=
  (∀ c q, dictGet R.priority c = some q ↔ (c, q) ∈ regs) ∧
  (∀ s : String,
    (dictGet R.preferred s = none →
      ∀ cp ∈ regs, s ∉ cp.1.SUPPORTED_SCHEMES) ∧
    (∀ c, dictGet R.preferred s = some c →
      s ∈ c.SUPPORTED_SCHEMES ∧
      ∃ q, (c, q) ∈ regs ∧ dictGet R.priority c = some q ∧
        ∀ cp ∈ regs, s ∈ cp.1.SUPPORTED_SCHEMES → q ≤ cp.2))

theorem register_inv (past : List (FilesystemCls × Int)) (c : FilesystemCls)
    (p : Int) (R : FilesystemRegistry) (hc : c ∉ past.map Prod.fst)
    (hInv : RegInv past R) : RegInv (past ++ [(c, p)]) (R.register c p) := by
  obtain ⟨hpri, hpref⟩ := hInv
  have hprc : dictGet (dictSet R.priority c p) c = some p := by
    rw [dictGet_dictSet]
    simp
  constructor
  · intro c0 q
    show dictGet (dictSet R.priority c p) c0 = some q ↔ _
    rw [dictGet_dictSet]
    by_cases hc0 : c0 = c
    · subst hc0
      rw [if_pos rfl]
      constructor
      · intro h
        have : p = q := Option.some.inj h
        subst this
        simp
      · intro h
        rcases List.mem_append.mp h with h | h
        · exact absurd (List.mem_map_of_mem Prod.fst h) hc
        · simp at h
          rw [h]
    · rw [if_neg hc0, hpri c0 q]
      constructor
      · intro h
        exact List.mem_append.mpr (Or.inl h)
      · intro h
        rcases List.mem_append.mp h with h | h
        · exact h
        · simp at h
          exact absurd h.1 hc0
  · intro s
    have hunfold : (R.register c p).preferred =
        registerSchemes (dictSet R.priority c p) c p
          c.SUPPORTED_SCHEMES R.preferred := rfl
    constructor
    · intro hnone
      rw [hunfold, registerSchemes_get] at hnone
      by_cases hcond : s ∈ c.SUPPORTED_SCHEMES ∧
          takeB (dictSet R.priority c p) p (dictGet R.preferred s) = true
      · rw [if_pos hcond] at hnone
        exact absurd hnone (by simp)
      · rw [if_neg hcond] at hnone
        intro cp hcp
        rcases List.mem_append.mp hcp with hcp | hcp
        · exact (hpref s).1 hnone cp hcp
        · obtain rfl : cp = (c, p) := by simpa using hcp
          intro hsc
          apply hcond
          refine ⟨hsc, ?_⟩
          rw [hnone]
          rfl
    · intro c0 hc0
      rw [hunfold, registerSchemes_get] at hc0
      by_cases hcond : s ∈ c.SUPPORTED_SCHEMES ∧
          takeB (dictSet R.priority c p) p (dictGet R.preferred s) = true
      · rw [if_pos hcond] at hc0
        obtain rfl : c = c0 := Option.some.inj hc0
        refine ⟨hcond.1, p, List.mem_append.mpr (Or.inr (by simp)), hprc, ?_⟩
        intro cp hcp hscp
        rcases List.mem_append.mp hcp with hcp | hcp
        · cases hold : dictGet R.preferred s with
          | none => exact absurd hscp ((hpref s).1 hold cp hcp)
          | some cur =>
              obtain ⟨hscur, q, hqmem, hqpri, hqmin⟩ := (hpref s).2 cur hold
              have hcurne : cur ≠ c := fun h =>
                hc (h ▸ List.mem_map_of_mem Prod.fst hqmem)
              have hprcur : dictGet (dictSet R.priority c p) cur = some q := by
                rw [dictGet_dictSet, if_neg hcurne]
                exact hqpri
              have htk := hcond.2
              rw [hold, takeB_some, hprcur] at htk
              have hpq : p < q := of_decide_eq_true htk
              exact le_trans (le_of_lt hpq) (hqmin cp hcp hscp)
        · obtain rfl : cp = (c, p) := by simpa using hcp
          exact le_refl p
      · rw [if_neg hcond] at hc0
        obtain ⟨hsc0, q, hqmem, hqpri, hqmin⟩ := (hpref s).2 c0 hc0
        have hc0ne : c0 ≠ c := fun h =>
          hc (h ▸ List.mem_map_of_mem Prod.fst hqmem)
        have hprc0 : dictGet (dictSet R.priority c p) c0 = some q := by
          rw [dictGet_dictSet, if_neg hc0ne]
          exact hqpri
        refine ⟨hsc0, q, List.mem_append.mpr (Or.inl hqmem), hprc0, ?_⟩
        intro cp hcp hscp
        rcases List.mem_append.mp hcp with hcp | hcp
        · exact hqmin cp hcp hscp
        · obtain rfl : cp = (c, p) := by simpa using hcp
          by_contra hqp
          apply hcond
          refine ⟨hscp, ?_⟩
          rw [hc0, takeB_some, hprc0]
          show decide (p < q) = true
          exact decide_eq_true (by omega)

theorem registerAll_inv_aux : ∀ (regs past : List (FilesystemCls × Int))
    (R : FilesystemRegistry),
    distinctB ((past ++ regs).map Prod.fst) = true → RegInv past R →
    RegInv (past ++ regs)
      (regs.foldl (fun R cp => R.register cp.1 cp.2) R) := by
  intro regs
  induction regs with
  | nil =>
      intro past R hd hInv
      simpa using hInv
  | cons cp rest ih =>
      intro past R hd hInv
      obtain ⟨c, p⟩ := cp
      have hc : c ∉ past.map Prod.fst := by
        have hmap : distinctB (past.map Prod.fst ++ c :: rest.map Prod.fst) = true := by
          simpa [List.map_append] using hd
        exact distinctB_middle _ c _ hmap
      have h1 : RegInv (past ++ [(c, p)]) (R.register c p) :=
        register_inv past c p R hc hInv
      have h2 := ih (past ++ [(c, p)]) (R.register c p)
        (by simpa [List.map_append, List.append_assoc] using hd) h1
      rw [List.foldl_cons]
      simpa [List.append_assoc] using h2

theorem registerAll_inv (regs : List (FilesystemCls × Int))
    (hd : distinctB (regs.map Prod.fst) = true) :
    RegInv regs (registerAll regs) := by
  have hbase : RegInv [] emptyRegistry := by
    constructor
    · intro c q
      simp [emptyRegistry, dictGet]
    · intro s
      constructor
      · intro _ cp hcp
        exact absurd hcp (by simp)
      · intro c hcg
        exact absurd hcg (by simp [emptyRegistry, dictGet])
  have := registerAll_inv_aux regs [] emptyRegistry (by simpa using hd) hbase
  simpa [registerAll] using this

/-- C8 (amended): after registering any list of (class, priority) pairs
in which no filesystem class is registered twice, resolving a path
returns a registered implementation that supports the path's extracted
scheme and whose priority number is minimal among all registered
implementations supporting that scheme (scheme resolution is prefix
matching of `scheme://`, defaulting to the empty local scheme). -/
theorem get_filesystem_for_path_lowest_priority
    (regs : List (FilesystemCls × Int)) (path : String)
    (c : FilesystemCls) (p : Int)
    (hd : distinctB (regs.map Prod.fst) = true)
    (hcp : (c, p) ∈ regs)
    (hsup : extractScheme path ∈ c.SUPPORTED_SCHEMES) :
    ∃ cbest pbest,
      get_filesystem_for_path (registerAll regs) path = Except.ok cbest ∧
      (cbest, pbest) ∈ regs ∧
      extractScheme path ∈ cbest.SUPPORTED_SCHEMES ∧
      ∀ cq ∈ regs, extractScheme path ∈ cq.1.SUPPORTED_SCHEMES → pbest ≤ cq.2 := by
  obtain ⟨hpri, hpref⟩ := registerAll_inv regs hd
  cases hget : dictGet (registerAll regs).preferred (extractScheme path) with
  | none => exact absurd hsup (((hpref (extractScheme path)).1 hget) (c, p) hcp)
  | some cbest =>
      obtain ⟨hs, q, hq, hqpr, hmin⟩ := (hpref (extractScheme path)).2 cbest hget
      refine ⟨cbest, q, ?_, hq, hs, hmin⟩
      unfold get_filesystem_for_path get_filesystem_for_scheme
      rw [hget]

/-- Filesystem class `A`, supporting scheme `s://`. -/
def clsA : FilesystemCls := { clsName := "A", SUPPORTED_SCHEMES := ["s://"] }

/-- Filesystem class `B`, supporting scheme `s://`. -/
def clsB : FilesystemCls := { clsName := "B", SUPPORTED_SCHEMES := ["s://"] }

/-- C8 counterexample: registering `A` at priority 5, `B` at 7, then
`A` again at 10, the registry keeps `A` as preferred for `s://` although
its recorded priority is now 10 while `B` supports the scheme at 7: the
returned implementation is not one of lowest priority number. -/
theorem get_filesystem_for_path_lowest_priority_cex :
    get_filesystem_for_path (registerAll [(clsA, 5), (clsB, 7), (clsA, 10)])
        "s://x" = Except.ok clsA ∧
    dictGet (registerAll [(clsA, 5), (clsB, 7), (clsA, 10)]).priority clsA =
      some 10 ∧
    dictGet (registerAll [(clsA, 5), (clsB, 7), (clsA, 10)]).priority clsB =
      some 7 ∧
    extractScheme "s://x" ∈ clsB.SUPPORTED_SCHEMES ∧
    ¬ (10 : Int) ≤ 7 := ⟨rfl, by decide, by decide, by decide, by decide⟩

/-- The `gs://` filesystem class of the spec's example. -/
def clsGs : FilesystemCls := { clsName := "gs", SUPPORTED_SCHEMES := ["gs://"] }

/-- The local filesystem class, registered for the empty scheme. -/
def clsLocal : FilesystemCls := { clsName := "local", SUPPORTED_SCHEMES := [""] }

/-- The registry contents of the spec's error example: the `gs://` class
and the local class, registered once each. -/
def regsGsLocal : List (FilesystemCls × Int) := [(clsGs, 10), (clsLocal, 20)]

/-- C8 witness: the amended theorem applied to a registry with the
`gs://` and local classes registered once each. -/
theorem get_filesystem_for_path_lowest_priority_witness :
    (distinctB (regsGsLocal.map Prod.fst) = true ∧
      (clsGs, (10 : Int)) ∈ regsGsLocal ∧
      extractScheme "gs://bucket/pipe" ∈ clsGs.SUPPORTED_SCHEMES) ∧
    (∃ cbest pbest,
      get_filesystem_for_path (registerAll regsGsLocal)
        "gs://bucket/pipe" = Except.ok cbest ∧
      (cbest, pbest) ∈ regsGsLocal ∧
      extractScheme "gs://bucket/pipe" ∈ cbest.SUPPORTED_SCHEMES ∧
      ∀ cq ∈ regsGsLocal,
        extractScheme "gs://bucket/pipe" ∈ cq.1.SUPPORTED_SCHEMES →
          pbest ≤ cq.2) :=
  ⟨⟨by decide, by decide, by decide⟩,
    get_filesystem_for_path_lowest_priority regsGsLocal
      "gs://bucket/pipe" clsGs 10 (by decide) (by decide) (by decide)⟩

/-- C9: for a scheme with no registered filesystem implementation,
`get_filesystem_for_scheme` returns the error (raises) rather than a
class, and the error message contains the offending scheme. -/
theorem get_filesystem_for_scheme_unsupported (R : FilesystemRegistry)
    (scheme : String) (h : dictGet R.preferred scheme = none) :
    get_filesystem_for_scheme R scheme = Except.error (schemeErrMsg scheme) ∧
    ∃ a b, schemeErrMsg scheme = a ++ scheme ++ b := by
  constructor
  · unfold get_filesystem_for_scheme
    rw [h]
  · refine ⟨"The filesystem scheme " ++ String.singleton (Char.ofNat 39),
      String.singleton (Char.ofNat 39) ++
        " is not available for use. For expanded filesystem scheme support, " ++
        "install the " ++ String.singleton (Char.ofNat 96) ++ "tensorflow" ++
        String.singleton (Char.ofNat 96) ++
        " package to enable additional filesystem plugins.", ?_⟩
    simp [schemeErrMsg, pyRepr, String.append_assoc]

/-- C9 witness: with only `gs://` and the local scheme registered,
requesting scheme `s3://` errors with a message naming `s3://`. -/
theorem get_filesystem_for_scheme_unsupported_witness :
    (dictGet (registerAll regsGsLocal).preferred "s3://" = none) ∧
    (get_filesystem_for_scheme (registerAll regsGsLocal) "s3://" =
        Except.error (schemeErrMsg "s3://") ∧
      ∃ a b, schemeErrMsg "s3://" = a ++ "s3://" ++ b) :=
  ⟨by decide,
    get_filesystem_for_scheme_unsupported
      (registerAll regsGsLocal) "s3://" (by decide)⟩
